import Mathlib

/-!
# Verification of the `weave` schema compiler

A shallow embedding, in Lean 4, of the Go package `weave`, which compiles
Go struct declarations (annotated with comment markers and struct tags)
into a Weaviate schema document, together with theorems settling the
specification's claims about it.

Conventions of the embedding:
* Go strings are modelled by Lean `String`; the byte-level operations the
  source uses (`strings.Contains`, `strings.Split`, `strings.TrimSpace`,
  indexing the first character) act on ASCII identifiers and markers in
  the source, so the character-level Lean counterparts coincide with them.
* A Go `map[string]V` is modelled by an association list with
  last-write-wins insertion (`mapSet`) and `List.lookup` reads; keys are
  unique by construction, mirroring a Go map's key set.
* Fallible Go functions returning `(T, error)` are modelled by
  `Except String T`, the error being the formatted message the source
  builds with `fmt.Errorf`.
-/

namespace Weave

/-- Go `strings.Contains s substr`: `substr` occurs contiguously in `s`.
Modelled as infix occurrence on the character lists. -/
def goContains (s substr : String) : Bool :=
  decide (substr.toList <:+: s.toList)

/-- Go `ast.IsExported name`: the first character of `name` is upper-case.
(Go checks the first rune with `unicode.IsUpper`; the identifiers involved
are ASCII, where `Char.isUpper` agrees.) -/
def isExported (s : String) : Bool :=
  match s.toList with
  | [] => false
  | c :: _ => c.isUpper

/-- Go `strings.ToLower(name[:1]) + name[1:]`: lower-case the first
character. -/
def lowerFirst (s : String) : String :=
  match s.toList with
  | [] => ""
  | c :: cs => String.mk (c.toLower :: cs)

/-- The splitting loop of Go `strings.Split` on character lists, fueled
by the input length (each step consumes at least one character). -/
def charsSplit (sep : List Char) : Nat → List Char → List (List Char)
  | 0, cs => [cs]
  | fuel + 1, cs =>
    if sep.isPrefixOf cs && !sep.isEmpty && !cs.isEmpty then
      [] :: charsSplit sep fuel (cs.drop sep.length)
    else
      match cs with
      | [] => [[]]
      | c :: rest =>
        match charsSplit sep fuel rest with
        | [] => [[c]]
        | l :: ls => (c :: l) :: ls

/-- Go `strings.Split s sep`: split around every occurrence of `sep`.
(The source never splits on an empty separator.) -/
def goSplit (s sep : String) : List String :=
  (charsSplit sep.toList (s.toList.length + 1) s.toList).map String.mk

/-- Joins strings with a separator, for reassembling the tail of a
2-bounded split. -/
def joinSep (sep : String) : List String → String
  | [] => ""
  | [x] => x
  | x :: xs => x ++ sep ++ joinSep sep xs

/-- Go `strings.SplitN s sep 2`: split at the first occurrence of `sep`
only. -/
def splitN2 (s sep : String) : List String :=
  match goSplit s sep with
  | [] => []
  | [x] => [x]
  | x :: xs => [x, joinSep sep xs]

/-- Go white-space predicate (`unicode.IsSpace` on the ASCII range the
source's comment text uses). -/
def isSpaceChar (c : Char) : Bool :=
  c = ' ' || c = '\t' || c = '\n' || c = '\r' ||
    c = Char.ofNat 11 || c = Char.ofNat 12

/-- Go `strings.TrimSpace`: drop white space from both ends. -/
def goTrim (s : String) : String :=
  String.mk (((s.toList.dropWhile isSpaceChar).reverse.dropWhile
    isSpaceChar).reverse)

/-- Go `strings.HasPrefix`. -/
def strStartsWith (s pre : String) : Bool :=
  pre.toList.isPrefixOf s.toList

/-- Go `strings.HasSuffix`. -/
def strEndsWith (s suf : String) : Bool :=
  suf.toList.reverse.isPrefixOf s.toList.reverse

/-- Association-list update with last-write-wins semantics: the model of
`m[k] = v` on a Go map.  The previous binding of `k` (if any) is removed,
so keys stay pairwise distinct. -/
def mapSet {α : Type} (m : List (String × α)) (k : String) (v : α) :
    List (String × α) :=
  m.filter (fun p => p.1 ≠ k) ++ [(k, v)]

/-- Association-list deletion: the model of Go `delete(m, k)`. -/
def mapDel {α : Type} (m : List (String × α)) (k : String) :
    List (String × α) :=
  m.filter (fun p => p.1 ≠ k)

/-- The constant `weaviateTag = "weave"`. -/
def weaviateTag : String := "weave"

/-- The constant `weaviateMarker = "+" + weaviateTag`: marks a struct for
inclusion in the Weaviate schema. -/
def weaviateMarker : String := "+" ++ weaviateTag

/-- The constant `weaviateDescMarker = "+" + weaviateTag + ":desc:"`. -/
def weaviateDescMarker : String := "+" ++ weaviateTag ++ ":desc:"

/-- The constant `weaviateConfigMarker = "+" + weaviateTag + ":config:"`. -/
def weaviateConfigMarker : String := "+" ++ weaviateTag ++ ":config:"

/-! ## Type expressions (`go/ast` shapes consumed by the mapper) -/

/-- The fragment of `go/ast.Expr` that `determineWeaviateDataType`
inspects.  `ident` is `*ast.Ident`, `arrayType` is `*ast.ArrayType` (its
element), `starExpr` is `*ast.StarExpr` (its operand), `selectorExpr` is
`*ast.SelectorExpr` (receiver expression and selected name), `structType`
is `*ast.StructType`, `mapType` is `*ast.MapType`, `interfaceType` is
`*ast.InterfaceType`.  `funcType` and `chanType` stand for `*ast.FuncType`
and `*ast.ChanType`: shapes that reach the function's final
`unsupported type` error. -/
inductive Expr : Type where
  | ident (name : String)
  | arrayType (elt : Expr)
  | starExpr (x : Expr)
  | selectorExpr (x : Expr) (sel : String)
  | structType
  | mapType
  | interfaceType
  | funcType
  | chanType
deriving Repr, DecidableEq

/-- The Go type-name of an unsupported shape, as `fmt.Errorf("%T", expr)`
prints it. -/
def Expr.goTypeName : Expr → String
  | .ident _ => "*ast.Ident"
  | .arrayType _ => "*ast.ArrayType"
  | .starExpr _ => "*ast.StarExpr"
  | .selectorExpr _ _ => "*ast.SelectorExpr"
  | .structType => "*ast.StructType"
  | .mapType => "*ast.MapType"
  | .interfaceType => "*ast.InterfaceType"
  | .funcType => "*ast.FuncType"
  | .chanType => "*ast.ChanType"

/-- The `nativeTypes` slice of `determineWeaviateDataType`'s array case. -/
def nativeTypes : List String :=
  ["text", "boolean", "int", "number", "date", "uuid", "object"]

/-- The integer identifiers grouped in one `case` of the source's switch. -/
def intIdents : List String :=
  ["int", "int8", "int16", "int32", "int64",
   "uint", "uint8", "uint16", "uint32", "uint64"]

/-- The floating-point identifiers grouped in one `case` of the switch. -/
def floatIdents : List String := ["float16", "float32", "float64"]

/-- `determineWeaviateDataType`: maps a Go type expression to a list of
Weaviate data-type tokens, or fails with the `unsupported type` error. -/
def determineWeaviateDataType : Expr → Except String (List String)
  | .ident name =>
    if name = "string" then .ok ["text"]
    else if intIdents.contains name then .ok ["int"]
    else if floatIdents.contains name then .ok ["number"]
    else if name = "bool" then .ok ["boolean"]
    else if isExported name then .ok [name]
    else .ok ["text"]
  | .arrayType elt =>
    match determineWeaviateDataType elt with
    | .error e => .error e
    | .ok elemType =>
      match elemType with
      | [t] =>
        if nativeTypes.contains t then .ok [t ++ "[]"]
        else if isExported t then .ok [t]
        else .ok ["object[]"]
      | _ => .ok ["object[]"]
  | .starExpr x => determineWeaviateDataType x
  | .selectorExpr x sel =>
    match x with
    | .ident n =>
      if n = "time" ∧ sel = "Time" then .ok ["date"]
      else if n = "uuid" ∧ sel = "UUID" then .ok ["uuid"]
      else .ok ["text"]
    | _ => .ok ["text"]
  | .structType => .ok ["object"]
  | .mapType => .ok ["object"]
  | .interfaceType => .ok ["text"]
  | e => .error ("unsupported type: " ++ e.goTypeName)

/-! ## Struct tags (`reflect.StructTag`) -/

/-- A Go struct tag after `strconv.Unquote` and `reflect.StructTag`
parsing: the association of tag keys (`json`, `weave`, ...) to their
quoted values.  `reflect.StructTag.Get` on an absent key returns `""`,
modelled by `tagGet`. -/
abbrev GoTag := List (String × String)

/-- `reflect.StructTag.Get`: the value bound to `key`, or `""` when the
tag has no such key. -/
def tagGet (t : GoTag) (key : String) : String :=
  (t.lookup key).getD ""

/-- `extractJSONFieldName`: the first comma-delimited segment of the
`json` tag, or `""` when the `json` tag is absent. -/
def extractJSONFieldName (t : GoTag) : String :=
  let jsonTag := tagGet t "json"
  if jsonTag = "" then ""
  else
    match goSplit jsonTag "," with
    | p :: _ => p
    | [] => ""

/-- `extractWeaviateConfig`: splits the `weave` tag on commas and keeps
the `key=value` segments (exactly one `=`) as a string map. -/
def extractWeaviateConfig (t : GoTag) : List (String × String) :=
  let tag := tagGet t weaviateTag
  if tag = "" then []
  else
    (goSplit tag ",").foldl
      (fun config part =>
        match goSplit part "=" with
        | [k, v] => mapSet config k v
        | _ => config)
      []

/-! ## Config values (`interface{}` results of the class-config coercion) -/

/-- The values a class-level config entry can hold: the result of the
source's ordered coercion (`strconv.ParseBool`, `strconv.ParseFloat`,
`json.Unmarshal` into `map[string]interface{}`, raw string).  A `float64`
is modelled by the source text it was parsed from (`numV`); its numeric
value is never consumed by the compiler.  `nullV`/`arrV` arise only
inside parsed JSON objects. -/
inductive ConfigValue : Type where
  | boolV (b : Bool)
  | numV (raw : String)
  | strV (s : String)
  | nullV
  | arrV (elems : List ConfigValue)
  | objV (entries : List (String × ConfigValue))

/-- The class-level config map: keys to coerced values. -/
abbrev ConfigObj := List (String × ConfigValue)

/-- `strconv.ParseBool`: accepts exactly these twelve strings. -/
def goParseBool (s : String) : Option Bool :=
  if ["1", "t", "T", "TRUE", "true", "True"].contains s then some true
  else if ["0", "f", "F", "FALSE", "false", "False"].contains s then some false
  else none

/-- Splits a char list at the first `e`/`E`, for recognizing the exponent
part of a float literal. -/
def splitAtExp : List Char → List Char × Option (List Char)
  | [] => ([], none)
  | c :: rest =>
    if c = 'e' ∨ c = 'E' then ([], some rest)
    else
      let (m, e) := splitAtExp rest
      (c :: m, e)

/-- A decimal mantissa: digits with at most one dot and at least one
digit. -/
def decimalMantOk (cs : List Char) : Bool :=
  cs.all (fun c => c.isDigit || c == '.') && cs.count '.' ≤ 1 &&
    cs.any (·.isDigit)

/-- An exponent part: optional sign then at least one digit. -/
def expPartOk (cs : List Char) : Bool :=
  let cs1 : List Char :=
    match cs with
    | '+' :: r => r
    | '-' :: r => r
    | r => r
  !cs1.isEmpty && cs1.all (·.isDigit)

/-- The success predicate of `strconv.ParseFloat(s, 64)` on the decimal
and special forms (optional sign; `inf`/`infinity`/`nan` in any case;
digits with an optional dot and an optional exponent).  Go additionally
accepts hexadecimal floats and underscored literals, which no config
value in this system's vocabulary takes. -/
def goParseFloatOk (s : String) : Bool :=
  let cs1 : List Char :=
    match s.toList with
    | '+' :: r => r
    | '-' :: r => r
    | r => r
  let lower := String.mk (cs1.map Char.toLower)
  if lower = "inf" ∨ lower = "infinity" ∨ lower = "nan" then true
  else
    match splitAtExp cs1 with
    | (mant, none) => decimalMantOk mant
    | (mant, some e) => decimalMantOk mant && expPartOk e

/-! ## A small JSON-object reader (`json.Unmarshal` into
`map[string]interface{}`) -/

/-- The opening-brace character. -/
def lbrace : Char := Char.ofNat 123

/-- The closing-brace character. -/
def rbrace : Char := Char.ofNat 125

/-- Drops leading JSON whitespace. -/
def skipWs : List Char → List Char
  | [] => []
  | c :: rest =>
    if c = ' ' ∨ c = '\t' ∨ c = '\n' ∨ c = '\r' then skipWs rest
    else c :: rest

/-- The single-character JSON escapes. -/
def jsonEscape : Char → Option Char
  | '"' => some '"'
  | '\\' => some '\\'
  | '/' => some '/'
  | 'b' => some (Char.ofNat 8)
  | 'f' => some (Char.ofNat 12)
  | 'n' => some '\n'
  | 'r' => some '\r'
  | 't' => some '\t'
  | _ => none

/-- Reads the remainder of a JSON string (the opening quote already
consumed), returning its characters and the rest of the input.  `\u`
escapes are not modelled; a string using them falls back to the raw-string
coercion branch. -/
def readJsonString : List Char → Option (List Char × List Char)
  | [] => none
  | '\\' :: c :: rest =>
    match jsonEscape c with
    | none => none
    | some e =>
      match readJsonString rest with
      | none => none
      | some (s, r) => some (e :: s, r)
  | c :: rest =>
    if c = '"' then some ([], rest)
    else
      match readJsonString rest with
      | none => none
      | some (s, r) => some (c :: s, r)

/-- The longest digit prefix of a char list, and the rest. -/
def splitDigits : List Char → List Char × List Char
  | [] => ([], [])
  | c :: rest =>
    if c.isDigit then
      let (ds, r) := splitDigits rest
      (c :: ds, r)
    else ([], c :: rest)

/-- Reads a JSON number: optional minus, integer digits, optional
fraction, optional exponent. -/
def readJsonNumber (cs : List Char) : Option (List Char × List Char) :=
  let (sgn, cs1) :=
    match cs with
    | '-' :: r => ((['-'] : List Char), r)
    | r => (([] : List Char), r)
  let (intDs, cs2) := splitDigits cs1
  if intDs.isEmpty then none
  else
    let (fracDs, cs3) :=
      match cs2 with
      | '.' :: r =>
        match splitDigits r with
        | ([], _) => (([] : List Char), '.' :: r)
        | (ds, r') => ('.' :: ds, r')
      | r => (([] : List Char), r)
    let (expDs, cs4) :=
      match cs3 with
      | e :: r =>
        if e = 'e' ∨ e = 'E' then
          let (sg, r1) :=
            match r with
            | '+' :: rr => ((['+'] : List Char), rr)
            | '-' :: rr => ((['-'] : List Char), rr)
            | rr => (([] : List Char), rr)
          match splitDigits r1 with
          | ([], _) => (([] : List Char), e :: r)
          | (ds, r') => (e :: (sg ++ ds), r')
        else ([], e :: r)
      | [] => ([], [])
    some (sgn ++ intDs ++ fracDs ++ expDs, cs4)

/-- Consumes a literal keyword (`true`, `false`, `null`). -/
def dropLit (lit : String) (cs : List Char) : Option (List Char) :=
  if lit.toList.isPrefixOf cs then some (cs.drop lit.length) else none

mutual

/-- Reads one JSON value (fueled recursion over the nesting depth). -/
def readJsonValue : Nat → List Char → Option (ConfigValue × List Char)
  | 0, _ => none
  | fuel + 1, cs =>
    match skipWs cs with
    | [] => none
    | c :: rest =>
      if c = lbrace then
        match readJsonMembers fuel rest with
        | none => none
        | some (ms, r) =>
          some (.objV (ms.foldl (fun acc kv => mapSet acc kv.1 kv.2) []), r)
      else if c = '[' then
        match readJsonElements fuel rest with
        | none => none
        | some (es, r) => some (.arrV es, r)
      else if c = '"' then
        match readJsonString rest with
        | none => none
        | some (s, r) => some (.strV (String.mk s), r)
      else if c = 't' then
        match dropLit "true" (c :: rest) with
        | some r => some (.boolV true, r)
        | none => none
      else if c = 'f' then
        match dropLit "false" (c :: rest) with
        | some r => some (.boolV false, r)
        | none => none
      else if c = 'n' then
        match dropLit "null" (c :: rest) with
        | some r => some (.nullV, r)
        | none => none
      else
        match readJsonNumber (c :: rest) with
        | some (numCs, r) => some (.numV (String.mk numCs), r)
        | none => none

/-- Reads the members of a JSON object, the opening brace already
consumed, through the closing brace. -/
def readJsonMembers : Nat → List Char → Option (List (String × ConfigValue) × List Char)
  | 0, _ => none
  | fuel + 1, cs =>
    match skipWs cs with
    | [] => none
    | c :: rest =>
      if c = rbrace then some ([], rest)
      else if c = '"' then
        match readJsonString rest with
        | none => none
        | some (keyCs, r1) =>
          match skipWs r1 with
          | ':' :: r2 =>
            match readJsonValue fuel r2 with
            | none => none
            | some (v, r3) =>
              match skipWs r3 with
              | ',' :: r4 =>
                match skipWs r4 with
                | c5 :: _ =>
                  if c5 = rbrace then none
                  else
                    match readJsonMembers fuel r4 with
                    | none => none
                    | some (ms, r5) => some ((String.mk keyCs, v) :: ms, r5)
                | [] => none
              | c4 :: r4 =>
                if c4 = rbrace then some ([(String.mk keyCs, v)], r4)
                else none
              | [] => none
          | _ => none
      else none

/-- Reads the elements of a JSON array, the opening bracket already
consumed, through the closing bracket. -/
def readJsonElements : Nat → List Char → Option (List ConfigValue × List Char)
  | 0, _ => none
  | fuel + 1, cs =>
    match skipWs cs with
    | [] => none
    | c :: rest =>
      if c = ']' then some ([], rest)
      else
        match readJsonValue fuel (c :: rest) with
        | none => none
        | some (v, r1) =>
          match skipWs r1 with
          | ',' :: r2 =>
            match skipWs r2 with
            | c3 :: _ =>
              if c3 = ']' then none
              else
                match readJsonElements fuel r2 with
                | none => none
                | some (es, r3) => some (v :: es, r3)
            | [] => none
          | c2 :: r2 =>
            if c2 = ']' then some ([v], r2)
            else none
          | [] => none

end

/-- `json.Unmarshal([]byte(s), &map[string]interface{})`: succeeds iff
`s` is one JSON object (with surrounding whitespace); later duplicate
keys win, as in a Go map. -/
def parseJsonObject (s : String) : Option ConfigObj :=
  match skipWs s.toList with
  | [] => none
  | c :: rest =>
    if c = lbrace then
      match readJsonMembers (s.length + 1) rest with
      | none => none
      | some (ms, r) =>
        match skipWs r with
        | [] => some (ms.foldl (fun acc kv => mapSet acc kv.1 kv.2) [])
        | _ => none
    else none

/-- The ordered value coercion of `extractWeaviateClassConfig`: boolean
literal, else float literal, else brace-delimited JSON object (falling
back to the raw string on parse failure), else raw string. -/
def coerceConfigValue (value : String) : ConfigValue :=
  match goParseBool value with
  | some b => .boolV b
  | none =>
    if goParseFloatOk value then .numV value
    else if strStartsWith value "\x7b" && strEndsWith value "\x7d" then
      match parseJsonObject value with
      | some m => .objV m
      | none => .strV value
    else .strV value

/-! ## Comment-group extraction -/

/-- The texts of an `*ast.CommentGroup`'s comments; a nil group is
`Option.none` at use sites. -/
abbrev CommentGroup := List String

/-- `hasWeaviateMarker`: some comment of the group contains the literal
`+weave` marker (substring containment, `strings.Contains`). -/
def hasWeaviateMarker : Option CommentGroup → Bool
  | none => false
  | some cg => cg.any (fun c => goContains c weaviateMarker)

/-- The loop body of `extractWeaviateDescription`: the trimmed text after
the first `+weave:desc:` occurrence, scanning comments in order. -/
def extractDescList : List String → String
  | [] => ""
  | c :: rest =>
    if goContains c weaviateDescMarker then
      match splitN2 c weaviateDescMarker with
      | _ :: p1 :: _ => goTrim p1
      | _ => extractDescList rest
    else extractDescList rest

/-- `extractWeaviateDescription`: `""` on a nil group. -/
def extractWeaviateDescription : Option CommentGroup → String
  | none => ""
  | some cg => extractDescList cg

/-- `extractWeaviateClassConfig`: accumulates, over every comment
containing `+weave:config:`, the `;`-separated `key=value` pairs that
follow the marker, with each value coerced by `coerceConfigValue`. -/
def extractWeaviateClassConfig : Option CommentGroup → ConfigObj
  | none => []
  | some cg =>
    cg.foldl
      (fun config c =>
        if goContains c weaviateConfigMarker then
          match splitN2 c weaviateConfigMarker with
          | _ :: p1 :: _ =>
            let configStr := goTrim p1
            (goSplit configStr ";").foldl
              (fun config part =>
                if part = "" then config
                else
                  match splitN2 part "=" with
                  | [k, v] => mapSet config (goTrim k) (coerceConfigValue (goTrim v))
                  | _ => config)
              config
          | _ => config
        else config)
      []

/-! ## Schema data model -/

/-- `WeaviateProperty`: one property of a Weaviate class. -/
structure WeaviateProperty : Type where
  name : String
  dataType : List String
  description : String
  tokenization : String
  indexFilterable : Bool
  indexSearchable : Bool
  indexInverted : Bool
deriving Repr, DecidableEq

/-- `WeaviateClass`: one Weaviate class schema definition.  The source's
`Class` field is `className` here (`class` is reserved in Lean); a nil
config map is `Option.none`. -/
@[ext]
structure WeaviateClass : Type where
  package : String
  className : String
  description : String
  vectorIndexType : String
  vectorIndexConfig : Option ConfigObj
  properties : List WeaviateProperty
  vectorizer : String
  moduleConfig : Option ConfigObj
  shardingConfig : Option ConfigObj
  replicationConfig : Option ConfigObj
  invertedIndexConfig : Option ConfigObj

/-- `WeaviateSchemaDefinition`: the whole generated schema. -/
structure WeaviateSchemaDefinition : Type where
  classes : List WeaviateClass

/-! ## Field processing (`processStruct`) -/

/-- A struct field as the scanner sees it: `Names` (empty for an
embedded field), the type expression, and the parsed struct tag (`none`
for `field.Tag == nil`). -/
structure FieldDecl : Type where
  names : List String
  typeExpr : Expr
  tag : Option GoTag

/-- A field-config read, `weaviateConfig[key]` on a possibly-nil map:
`none` both when the map is nil and when the key is absent. -/
def cfgGet (cfg : Option (List (String × String))) (key : String) :
    Option String :=
  cfg.bind (fun m => m.lookup key)

/-- Builds the `WeaviateProperty` for one field: name and data type, then
the tag-config overrides (`description`, `tokenization`, and the three
index flags, each true exactly on the literal string `"true"`). -/
def mkProperty (propName : String) (dataType : List String)
    (cfg : Option (List (String × String))) : WeaviateProperty :=
  let property : WeaviateProperty :=
    { name := propName, dataType := dataType, description := "",
      tokenization := "", indexFilterable := false,
      indexSearchable := false, indexInverted := false }
  let property :=
    match cfgGet cfg "description" with
    | some desc => { property with description := desc }
    | none => property
  let property :=
    match cfgGet cfg "tokenization" with
    | some tok => { property with tokenization := tok }
    | none => property
  let property :=
    match cfgGet cfg "indexFilterable" with
    | some v => { property with indexFilterable := v = "true" }
    | none => property
  let property :=
    match cfgGet cfg "indexSearchable" with
    | some v => { property with indexSearchable := v = "true" }
    | none => property
  match cfgGet cfg "indexInverted" with
  | some v => { property with indexInverted := v = "true" }
  | none => property

/-- The per-field body of `processStruct`'s loop: `.ok none` models
`continue` (embedded, unexported, or `json:"-"`-excluded fields),
`.ok (some p)` an appended property, `.error` the loop's early return. -/
def processField (field : FieldDecl) : Except String (Option WeaviateProperty) :=
  match field.names with
  | [] => .ok none
  | fieldName :: _ =>
    if !isExported fieldName then .ok none
    else
      let tagInfo : String × Option (List (String × String)) :=
        match field.tag with
        | some t => (extractJSONFieldName t, some (extractWeaviateConfig t))
        | none => ("", none)
      let propName := tagInfo.1
      let weaviateConfig := tagInfo.2
      if propName = "-" then .ok none
      else
        let propName := if propName = "" then lowerFirst fieldName else propName
        let dataTypeOverride : Option (List String) :=
          match weaviateConfig with
          | some m =>
            match m.lookup "type" with
            | some dt => some [dt]
            | none => none
          | none => none
        let weaviateConfig :=
          match weaviateConfig, dataTypeOverride with
          | some m, some _ => some (mapDel m "type")
          | c, _ => c
        match dataTypeOverride with
        | some dataType => .ok (some (mkProperty propName dataType weaviateConfig))
        | none =>
          match determineWeaviateDataType field.typeExpr with
          | .error err =>
            .error s!"error determining data type for field {fieldName}: {err}"
          | .ok dataType => .ok (some (mkProperty propName dataType weaviateConfig))

/-- `processStruct`'s loop over the field list, collecting properties in
field order and returning the first error. -/
def processFields : List FieldDecl → Except String (List WeaviateProperty)
  | [] => .ok []
  | f :: rest =>
    match processField f with
    | .error e => .error e
    | .ok none => processFields rest
    | .ok (some p) =>
      match processFields rest with
      | .error e => .error e
      | .ok ps => .ok (p :: ps)

/-- `processStruct`: the class skeleton (defaults `hnsw` and
`text2vec-contextionary`) filled with the processed properties. -/
def processStruct (packageName structName : String) (fields : List FieldDecl) :
    Except String WeaviateClass :=
  match processFields fields with
  | .error e => .error e
  | .ok props =>
    .ok { package := packageName, className := structName, description := "",
          vectorIndexType := "hnsw", vectorIndexConfig := none,
          properties := props, vectorizer := "text2vec-contextionary",
          moduleConfig := none, shardingConfig := none,
          replicationConfig := none, invertedIndexConfig := none }

/-! ## Class configuration (`applyClassConfig`) -/

/-- One iteration of `applyClassConfig`'s loop: a recognized key whose
value has the matching dynamic type updates the corresponding class
field; everything else is ignored. -/
def applyClassConfigEntry (c : WeaviateClass) (kv : String × ConfigValue) :
    WeaviateClass :=
  if kv.1 = "vectorIndexType" then
    match kv.2 with
    | .strV s => { c with vectorIndexType := s }
    | _ => c
  else if kv.1 = "vectorizer" then
    match kv.2 with
    | .strV s => { c with vectorizer := s }
    | _ => c
  else if kv.1 = "vectorIndexConfig" then
    match kv.2 with
    | .objV m => { c with vectorIndexConfig := some m }
    | _ => c
  else if kv.1 = "moduleConfig" then
    match kv.2 with
    | .objV m => { c with moduleConfig := some m }
    | _ => c
  else if kv.1 = "shardingConfig" then
    match kv.2 with
    | .objV m => { c with shardingConfig := some m }
    | _ => c
  else if kv.1 = "replicationConfig" then
    match kv.2 with
    | .objV m => { c with replicationConfig := some m }
    | _ => c
  else if kv.1 = "invertedIndexConfig" then
    match kv.2 with
    | .objV m => { c with invertedIndexConfig := some m }
    | _ => c
  else c

/-- `applyClassConfig`: applies every config entry to the class.  The Go
original ranges over a map (arbitrary iteration order); the model takes
the entries in list order, and the order-irrelevance over distinct keys
is proved separately. -/
def applyClassConfig (c : WeaviateClass) (config : ConfigObj) : WeaviateClass :=
  config.foldl applyClassConfigEntry c

/-! ## File AST processing (`processFileAST`) -/

/-- The body of a type spec: a struct type with its fields, or any other
type (alias, interface, ...), which `processFileAST` skips. -/
inductive TypeNode : Type where
  | structType (fields : List FieldDecl)
  | otherType

/-- A spec inside a `GenDecl`: an `*ast.TypeSpec` (name, doc comment,
type) or any other spec, which the type assertion skips. -/
inductive SpecNode : Type where
  | typeSpec (name : String) (doc : Option CommentGroup) (ty : TypeNode)
  | otherSpec

/-- A top-level declaration: an `*ast.GenDecl` with `Tok == token.TYPE`
(doc comment and specs), or any other declaration, which the loop
skips. -/
inductive DeclNode : Type where
  | typeGenDecl (doc : Option CommentGroup) (specs : List SpecNode)
  | otherDecl

/-- A parsed Go file: package name and top-level declarations in source
order. -/
structure FileAST : Type where
  packageName : String
  decls : List DeclNode

/-- The per-spec body of `processFileAST`'s inner loop: marker check
(group doc first, then the type-spec doc), description and config
extraction with the same two-site precedence, `processStruct` (its error
wrapped with the struct name), then description assignment and
`applyClassConfig`.  Returns the classes the spec contributes. -/
def processSpec (packageName : String) (gdDoc : Option CommentGroup)
    (spec : SpecNode) : Except String (List WeaviateClass) :=
  match spec with
  | .otherSpec => .ok []
  | .typeSpec name tsDoc ty =>
    match ty with
    | .otherType => .ok []
    | .structType fields =>
      let includeInWeaviate := hasWeaviateMarker gdDoc
      let includeInWeaviate :=
        if includeInWeaviate then includeInWeaviate
        else hasWeaviateMarker tsDoc
      if !includeInWeaviate then .ok []
      else
        let description := extractWeaviateDescription gdDoc
        let description :=
          if description = "" then extractWeaviateDescription tsDoc
          else description
        let config := extractWeaviateClassConfig gdDoc
        let config :=
          if config.length = 0 then extractWeaviateClassConfig tsDoc
          else config
        match processStruct packageName name fields with
        | .error err => .error s!"error processing struct {name}: {err}"
        | .ok class0 =>
          let class1 :=
            if description ≠ "" then { class0 with description := description }
            else class0
          .ok [applyClassConfig class1 config]

/-- The shared shape of the source's aggregation loops: process one item
at a time, append the classes it contributes, and return the first
error. -/
def chainProcess {α : Type} (step : α → Except String (List WeaviateClass)) :
    List α → Except String (List WeaviateClass)
  | [] => .ok []
  | x :: rest =>
    match step x with
    | .error e => .error e
    | .ok cs =>
      match chainProcess step rest with
      | .error e => .error e
      | .ok rest' => .ok (cs ++ rest')

/-- `processFileAST`'s inner loop over a `GenDecl`'s specs, in order,
returning the first error. -/
def processSpecs (packageName : String) (gdDoc : Option CommentGroup)
    (specs : List SpecNode) : Except String (List WeaviateClass) :=
  chainProcess (processSpec packageName gdDoc) specs

/-- One declaration of `processFileAST`'s outer loop. -/
def processDecl (packageName : String) : DeclNode → Except String (List WeaviateClass)
  | .otherDecl => .ok []
  | .typeGenDecl doc specs => processSpecs packageName doc specs

/-- `processFileAST`'s outer loop over the file's declarations. -/
def processDecls (packageName : String) (decls : List DeclNode) :
    Except String (List WeaviateClass) :=
  chainProcess (processDecl packageName) decls

/-- `processFileAST`: the classes a file appends to the schema, or the
first error. -/
def processFileAST (file : FileAST) : Except String (List WeaviateClass) :=
  processDecls file.packageName file.decls

/-! ## Directory processing (`processGoFiles`, `GenerateWeaviateSchema`) -/

/-- One `.go` file of the scanned directory: its path and its parse
result (`.error` models a `parser.ParseFile` failure). -/
structure GoFile : Type where
  path : String
  parsed : Except String FileAST

/-- Path order on files: the lexicographic string order `filepath.Glob`
sorts its matches by. -/
def pathLe (a b : GoFile) : Prop := a.path ≤ b.path

instance : DecidableRel pathLe := fun a b =>
  inferInstanceAs (Decidable (a.path ≤ b.path))

instance : IsTotal GoFile pathLe := ⟨fun a b => le_total a.path b.path⟩

instance : IsTrans GoFile pathLe := ⟨fun _ _ _ h1 h2 => le_trans h1 h2⟩

/-- The sort `filepath.Glob` applies to its matches: ascending path
order. -/
def sortFiles (files : List GoFile) : List GoFile :=
  List.insertionSort pathLe files

/-- One file of `processGoFiles`'s loop: parse (wrapping a parse failure
with the path) and process the AST. -/
def processFile (f : GoFile) : Except String (List WeaviateClass) :=
  match f.parsed with
  | .error e => .error s!"error parsing file {f.path}: {e}"
  | .ok ast => processFileAST ast

/-- The loop of `processGoFiles` over the (already sorted) glob matches,
appending each file's classes in file order. -/
def processFiles (files : List GoFile) : Except String (List WeaviateClass) :=
  chainProcess processFile files

/-- `GenerateWeaviateSchema`, from the directory's `.go` listing onward:
sort the matches (as `filepath.Glob` does) and fold the files into one
schema. -/
def generateWeaviateSchema (files : List GoFile) :
    Except String WeaviateSchemaDefinition :=
  match processFiles (sortFiles files) with
  | .error e => .error e
  | .ok cs => .ok ⟨cs⟩

/-- The filesystem visible to `filepath.Glob dir/*.go`: the `.go` files
of each readable directory; `none` is an unreadable or missing
directory.  `filepath.Glob` ignores file-system errors (its only error
is `ErrBadPattern`, impossible for the bracket-free paths modelled
here), so an unreadable directory yields no matches and a nil error. -/
def globGoFiles (fs : String → Option (List GoFile)) (dir : String) :
    List GoFile :=
  match fs dir with
  | none => []
  | some files => files

/-- `GenerateWeaviateSchema` from the directory path, over the modelled
filesystem. -/
def generateWeaviateSchemaFS (fs : String → Option (List GoFile))
    (dir : String) : Except String WeaviateSchemaDefinition :=
  generateWeaviateSchema (globGoFiles fs dir)

/-! ## Basic lemmas about the data-type mapper -/

/-- The scalar identifiers the mapper's switch recognizes. -/
def scalarIdents : List String :=
  "string" :: intIdents ++ floatIdents ++ ["bool"]

theorem mem_nativeTypes_not_exported {t : String} (h : t ∈ nativeTypes) :
    isExported t = false := by
  fin_cases h <;> rfl

/-! ## Claim theorems: the type-shape mapper -/

/-- C7: mapping a pointer shape yields exactly the mapping of the wrapped
type, including the error case: `map(Pointer(X)) = map(X)` for every `X`. -/
theorem map_starExpr_eq (X : Expr) :
    determineWeaviateDataType (.starExpr X) = determineWeaviateDataType X := rfl

/-- The array rule as the specification words it, on the inner token
list: suffix a lone native-compatible token with `[]`, keep a lone
upper-case-initial token (class reference) unchanged, and give
`object[]` in every other case. -/
def specArrayRule (ts : List String) : List String :=
  match ts with
  | [t] =>
    if nativeTypes.contains t then [t ++ "[]"]
    else if isExported t then [t]
    else ["object[]"]
  | _ => ["object[]"]

/-- C1: the array rule.  When `map(X)` succeeds with token list `ts`,
`map(Array(X))` is the single token `t ++ "[]"` when `ts = [t]` with `t`
in the native-compatible set, the unchanged `[t]` when `ts = [t]` with
`t` upper-case-initial (a class reference), and `["object[]"]` in every
other successful case. -/
theorem map_arrayType_rule (X : Expr) (ts : List String)
    (h : determineWeaviateDataType X = .ok ts) :
    determineWeaviateDataType (.arrayType X) = .ok (specArrayRule ts) := by
  show (match determineWeaviateDataType X with
    | .error e => (Except.error e : Except String (List String))
    | .ok elemType =>
      match elemType with
      | [t] =>
        if nativeTypes.contains t then Except.ok [t ++ "[]"]
        else if isExported t then Except.ok [t]
        else Except.ok ["object[]"]
      | _ => Except.ok ["object[]"]) = _
  rw [h]
  rcases ts with _ | ⟨t, _ | ⟨u, rest⟩⟩
  · rfl
  · show _ = Except.ok (specArrayRule [t])
    unfold specArrayRule
    dsimp only
    split_ifs <;> rfl
  · rfl

/-- C1 witness: the three branches of the array rule at concrete inputs:
`[]string ↦ text[]`, `[]Article ↦ Article`, `[][]string ↦ object[]`. -/
theorem map_arrayType_rule_witness :
    determineWeaviateDataType (.arrayType (.ident "string")) = .ok ["text[]"] ∧
    determineWeaviateDataType (.arrayType (.ident "Article")) = .ok ["Article"] ∧
    determineWeaviateDataType (.arrayType (.arrayType (.ident "string"))) =
      .ok ["object[]"] := by
  refine ⟨?_, ?_, ?_⟩
  · have h := map_arrayType_rule (.ident "string") ["text"] rfl
    simpa using h
  · have h := map_arrayType_rule (.ident "Article") ["Article"] rfl
    simpa [isExported] using h
  · have h := map_arrayType_rule (.arrayType (.ident "string")) ["text[]"] rfl
    simpa [isExported] using h

/-- C2: the named-identifier rule.  `string ↦ ["text"]`; every
integer-width identifier (signed or unsigned, any bit width) `↦ ["int"]`;
every floating-point identifier `↦ ["number"]`; `bool ↦ ["boolean"]`; any
other identifier maps to itself as the sole token when upper-case-initial
and to `["text"]` otherwise. -/
theorem map_ident_rule :
    determineWeaviateDataType (.ident "string") = .ok ["text"] ∧
    (∀ n, n ∈ intIdents → determineWeaviateDataType (.ident n) = .ok ["int"]) ∧
    (∀ n, n ∈ floatIdents → determineWeaviateDataType (.ident n) = .ok ["number"]) ∧
    determineWeaviateDataType (.ident "bool") = .ok ["boolean"] ∧
    (∀ n, n ∉ scalarIdents →
      determineWeaviateDataType (.ident n) =
        .ok (if isExported n then [n] else ["text"])) := by
  refine ⟨rfl, ?_, ?_, rfl, ?_⟩
  · intro n hn; fin_cases hn <;> rfl
  · intro n hn; fin_cases hn <;> rfl
  · intro n hn
    have h1 : ¬ n = "string" := fun e => hn (by simp [scalarIdents, e])
    have h2 : ¬ intIdents.contains n = true := by
      intro hc
      exact hn (by simp only [scalarIdents]; simp at hc; simp [hc])
    have h3 : ¬ floatIdents.contains n = true := by
      intro hc
      exact hn (by simp only [scalarIdents]; simp at hc; simp [hc])
    have h4 : ¬ n = "bool" := fun e => hn (by simp [scalarIdents, e])
    show (if n = "string" then Except.ok ["text"]
      else if intIdents.contains n then .ok ["int"]
      else if floatIdents.contains n then .ok ["number"]
      else if n = "bool" then .ok ["boolean"]
      else if isExported n then .ok [n]
      else .ok ["text"]) = _
    rw [if_neg h1, if_neg h2, if_neg h3, if_neg h4]
    by_cases h5 : isExported n = true <;> simp [h5]

/-- C2 witness: the rule applied at `uint32`, at an exported identifier
and at an unexported identifier. -/
theorem map_ident_rule_witness :
    determineWeaviateDataType (.ident "uint32") = .ok ["int"] ∧
    determineWeaviateDataType (.ident "Article") = .ok ["Article"] ∧
    determineWeaviateDataType (.ident "myEnum") = .ok ["text"] := by
  refine ⟨map_ident_rule.2.1 "uint32" (by decide), ?_, ?_⟩
  · have h := map_ident_rule.2.2.2.2 "Article" (by decide)
    simpa [isExported] using h
  · have h := map_ident_rule.2.2.2.2 "myEnum" (by decide)
    simpa [isExported] using h

/-! ## Claim theorems: marker detection -/

/-- C9: marker detection is substring containment and both the
description marker `+weave:desc:` and the config marker `+weave:config:`
contain the inclusion marker `+weave` as a prefix, so a comment group
containing a description directive or a config directive (with or
without a standalone inclusion marker) is always treated as marked for
inclusion. -/
theorem desc_or_config_directive_implies_marker (cg : CommentGroup)
    (c : String) (hc : c ∈ cg)
    (h : goContains c weaviateDescMarker = true ∨
         goContains c weaviateConfigMarker = true) :
    hasWeaviateMarker (some cg) = true := by
  show cg.any (fun c => goContains c weaviateMarker) = true
  rw [List.any_eq_true]
  refine ⟨c, hc, ?_⟩
  unfold goContains at h ⊢
  rw [decide_eq_true_iff]
  rcases h with h | h
  · rw [decide_eq_true_iff] at h
    have h1 : weaviateMarker.toList <+: weaviateDescMarker.toList := by decide
    exact h1.isInfix.trans h
  · rw [decide_eq_true_iff] at h
    have h1 : weaviateMarker.toList <+: weaviateConfigMarker.toList := by decide
    exact h1.isInfix.trans h

/-- C9 witness: a doc comment holding only a description directive, and
one holding only a config directive, both count as marked. -/
theorem desc_or_config_directive_implies_marker_witness :
    hasWeaviateMarker (some ["// +weave:desc: A news article"]) = true ∧
    hasWeaviateMarker (some ["// +weave:config: vectorizer=none"]) = true := by
  constructor
  · exact desc_or_config_directive_implies_marker _
      "// +weave:desc: A news article" (by decide) (.inl (by decide))
  · exact desc_or_config_directive_implies_marker _
      "// +weave:config: vectorizer=none" (by decide) (.inr (by decide))

/-! ## Claim theorems: directory scanning -/

/-- C4 (code behavior): `filepath.Glob` ignores file-system errors, so
for an unreadable or missing directory the generator returns a

successful, empty schema rather than a scan error: the claimed
`ScanError` never happens. -/
theorem unreadable_dir_yields_empty_schema
    (fs : String → Option (List GoFile)) (dir : String)
    (h : fs dir = none) :
    generateWeaviateSchemaFS fs dir = .ok ⟨[]⟩ := by
  unfold generateWeaviateSchemaFS globGoFiles
  rw [h]
  rfl

/-- C4 witness: a filesystem with no readable directory at all still
produces the empty schema for `/nonexistent`. -/
theorem unreadable_dir_yields_empty_schema_witness :
    generateWeaviateSchemaFS (fun _ => none) "/nonexistent" = .ok ⟨[]⟩ :=
  unreadable_dir_yields_empty_schema (fun _ => none) "/nonexistent" rfl

/-! ## Lemmas about field processing -/

theorem mkProperty_name (n : String) (dt : List String)
    (cfg : Option (List (String × String))) : (mkProperty n dt cfg).name = n := by
  unfold mkProperty
  repeat' split
  all_goals rfl

theorem mkProperty_dataType (n : String) (dt : List String)
    (cfg : Option (List (String × String))) :
    (mkProperty n dt cfg).dataType = dt := by
  unfold mkProperty
  repeat' split
  all_goals rfl

/-- A field whose `json` name segment is `-` is skipped, whatever else it
carries. -/
theorem processField_excluded (f : FieldDecl) (t : GoTag)
    (ht : f.tag = some t) (hx : extractJSONFieldName t = "-") :
    processField f = .ok none := by
  unfold processField
  rcases f with ⟨names, ty, tag⟩
  rcases names with _ | ⟨n, rest⟩
  · rfl
  · dsimp only
    by_cases he : isExported n
    · rw [if_neg (by simp [he])]
      cases ht
      dsimp only
      rw [if_pos hx]
    · rw [if_pos (by simp [he])]

/-- The field loop on a cons whose head is skipped. -/
theorem processFields_cons_none (f : FieldDecl) (h : processField f = .ok none)
    (l : List FieldDecl) : processFields (f :: l) = processFields l := by
  simp only [processFields, h]

/-- Skipped fields leave the processed field list unchanged. -/
theorem processFields_skip (f : FieldDecl) (h : processField f = .ok none)
    (l1 l2 : List FieldDecl) :
    processFields (l1 ++ f :: l2) = processFields (l1 ++ l2) := by
  induction l1 with
  | nil => simpa using processFields_cons_none f h l2
  | cons g rest ih =>
    show processFields (g :: (rest ++ f :: l2)) = processFields (g :: (rest ++ l2))
    simp only [processFields]
    rw [ih]

/-- Every property produced by the field loop comes from some field that
the loop accepted. -/
theorem processFields_mem (fields : List FieldDecl)
    (ps : List WeaviateProperty) (h : processFields fields = .ok ps) :
    ∀ p ∈ ps, ∃ f ∈ fields, processField f = .ok (some p) := by
  induction fields generalizing ps with
  | nil =>
    cases h
    intro p hp
    exact absurd hp (List.not_mem_nil p)
  | cons f rest ih =>
    intro p hp
    unfold processFields at h
    rcases hf : processField f with e | po
    · rw [hf] at h; cases h
    · rw [hf] at h
      rcases po with _ | q
      · obtain ⟨g, hg, hgp⟩ := ih ps h p hp
        exact ⟨g, List.mem_cons_of_mem f hg, hgp⟩
      · rcases hr : processFields rest with e | qs
        · rw [hr] at h; cases h
        · rw [hr] at h
          cases h
          rcases List.mem_cons.mp hp with rfl | hp'
          · exact ⟨f, List.mem_cons_self f rest, hf⟩
          · obtain ⟨g, hg, hgp⟩ := ih qs hr p hp'
            exact ⟨g, List.mem_cons_of_mem f hg, hgp⟩

/-- The name of a property the loop accepts: the tag-declared name when
the `json` tag gives a non-empty one, else the lower-cased field name. -/
theorem processField_name (f : FieldDecl) (p : WeaviateProperty)
    (h : processField f = .ok (some p)) :
    ∃ n rest, f.names = n :: rest ∧ isExported n = true ∧
      ((∃ t, f.tag = some t ∧ extractJSONFieldName t ≠ "-" ∧
        ((extractJSONFieldName t ≠ "" ∧ p.name = extractJSONFieldName t) ∨
         (extractJSONFieldName t = "" ∧ p.name = lowerFirst n))) ∨
       (f.tag = none ∧ p.name = lowerFirst n)) := by
  unfold processField at h
  rcases f with ⟨names, ty, tag⟩
  rcases names with _ | ⟨n, rest⟩
  · cases h
  · dsimp only at h
    by_cases he : isExported n
    · rw [if_neg (by simp [he])] at h
      refine ⟨n, rest, rfl, he, ?_⟩
      rcases tag with _ | t
      · simp only [String.reduceEq, if_false, reduceIte] at h
        refine .inr ⟨rfl, ?_⟩
        split at h
        · cases h
        · simp only [Except.ok.injEq, Option.some.injEq] at h
          subst h
          exact mkProperty_name _ _ _
      · dsimp only at h
        by_cases hx : extractJSONFieldName t = "-"
        · rw [if_pos hx] at h
          cases h
        · rw [if_neg hx] at h
          refine .inl ⟨t, rfl, hx, ?_⟩
          by_cases he2 : extractJSONFieldName t = ""
          · rw [if_pos he2] at h
            refine .inr ⟨he2, ?_⟩
            split at h
            · simp only [Except.ok.injEq, Option.some.injEq] at h
              subst h
              exact mkProperty_name _ _ _
            · split at h
              · cases h
              · simp only [Except.ok.injEq, Option.some.injEq] at h
                subst h
                exact mkProperty_name _ _ _
          · rw [if_neg he2] at h
            refine .inl ⟨he2, ?_⟩
            split at h
            · simp only [Except.ok.injEq, Option.some.injEq] at h
              subst h
              exact mkProperty_name _ _ _
            · split at h
              · cases h
              · simp only [Except.ok.injEq, Option.some.injEq] at h
                subst h
                exact mkProperty_name _ _ _
    · rw [if_pos (by simp [he])] at h
      cases h

/-! ## Claim theorems: property naming, exclusion, and type override -/

/-- C5: for every built class, a field whose serialization-name tag
segment is exactly `-` contributes no property, and every emitted
property is named by the tag-declared serialization name when the tag
gives a non-empty one, else by the field name with its first character
lower-cased. -/
theorem property_naming_and_exclusion (pkg sn : String) :
    (∀ (l1 l2 : List FieldDecl) (f : FieldDecl) (t : GoTag),
      f.tag = some t → extractJSONFieldName t = "-" →
      processStruct pkg sn (l1 ++ f :: l2) = processStruct pkg sn (l1 ++ l2)) ∧
    (∀ (fields : List FieldDecl) (cls : WeaviateClass),
      processStruct pkg sn fields = .ok cls →
      ∀ p ∈ cls.properties, ∃ f ∈ fields, ∃ n rest, f.names = n :: rest ∧
        isExported n = true ∧
        ((∃ t, f.tag = some t ∧ extractJSONFieldName t ≠ "-" ∧
          ((extractJSONFieldName t ≠ "" ∧ p.name = extractJSONFieldName t) ∨
           (extractJSONFieldName t = "" ∧ p.name = lowerFirst n))) ∨
         (f.tag = none ∧ p.name = lowerFirst n))) := by
  constructor
  · intro l1 l2 f t ht hx
    unfold processStruct
    rw [processFields_skip f (processField_excluded f t ht hx) l1 l2]
  · intro fields cls hc p hp
    unfold processStruct at hc
    rcases hf : processFields fields with e | ps
    · rw [hf] at hc; cases hc
    · rw [hf] at hc
      cases hc
      obtain ⟨f, hfm, hfp⟩ := processFields_mem fields ps hf p (by simpa using hp)
      obtain ⟨n, rest, h1, h2, h3⟩ := processField_name f p hfp
      exact ⟨f, hfm, n, rest, h1, h2, h3⟩

/-- A field excluded by `json:"-"`. -/
def secretField : FieldDecl :=
  { names := ["Secret"], typeExpr := .ident "string",
    tag := some [("json", "-")] }

/-- A plain exported string field with no tag. -/
def titleField : FieldDecl :=
  { names := ["Title"], typeExpr := .ident "string", tag := none }

/-- An unsupported (function-typed) field carrying an explicit `type`
override in its `weave` tag. -/
def overriddenField : FieldDecl :=
  { names := ["Blob"], typeExpr := .funcType,
    tag := some [("weave", "type=text")] }

/-- C5 witness: the `json:"-"` field contributes nothing, and the
`Title` field emits a property named `title`. -/
theorem property_naming_and_exclusion_witness :
    processStruct "news" "Article" ([] ++ secretField :: [titleField]) =
      processStruct "news" "Article" ([] ++ [titleField]) ∧
    (∃ f ∈ [titleField], ∃ n rest, f.names = n :: rest ∧
      isExported n = true ∧
      ((∃ t, f.tag = some t ∧ extractJSONFieldName t ≠ "-" ∧
        ((extractJSONFieldName t ≠ "" ∧
            (WeaviateProperty.mk "title" ["text"] "" "" false false false).name =
              extractJSONFieldName t) ∨
         (extractJSONFieldName t = "" ∧
            (WeaviateProperty.mk "title" ["text"] "" "" false false false).name =
              lowerFirst n))) ∨
       (f.tag = none ∧
          (WeaviateProperty.mk "title" ["text"] "" "" false false false).name =
            lowerFirst n))) := by
  constructor
  · exact (property_naming_and_exclusion "news" "Article").1 [] [titleField]
      secretField [("json", "-")] rfl (by decide)
  · exact (property_naming_and_exclusion "news" "Article").2 [titleField]
      (WeaviateClass.mk "news" "Article" "" "hnsw" none
        [WeaviateProperty.mk "title" ["text"] "" "" false false false]
        "text2vec-contextionary" none none none none)
      rfl (WeaviateProperty.mk "title" ["text"] "" "" false false false)
      (by simp)

/-- C10: a field whose `weave` tag supplies a `type` key emits a property
whose dataType is exactly that raw string as a one-element list, with no
validation, and the type-shape mapper is never consulted: the result is
the same for every underlying type expression, so an unsupported shape
cannot fail compilation on an overridden field. -/
theorem type_override_bypasses_mapper (f : FieldDecl) (n : String)
    (rest : List String) (t : GoTag) (dt : String)
    (hn : f.names = n :: rest) (he : isExported n = true)
    (ht : f.tag = some t) (hx : extractJSONFieldName t ≠ "-")
    (hdt : (extractWeaviateConfig t).lookup "type" = some dt) :
    (∃ p, processField f = .ok (some p) ∧ p.dataType = [dt]) ∧
    (∀ ty, processField { f with typeExpr := ty } = processField f) := by
  rcases f with ⟨names, ty0, tag⟩
  dsimp only at hn ht
  subst hn
  subst ht
  have key : ∀ ty, processField ⟨n :: rest, ty, some t⟩ =
      .ok (some (mkProperty
        (if extractJSONFieldName t = "" then lowerFirst n
         else extractJSONFieldName t)
        [dt] (some (mapDel (extractWeaviateConfig t) "type")))) := by
    intro ty
    unfold processField
    dsimp only
    rw [if_neg (by simp [he]), if_neg hx, hdt]
  constructor
  · exact ⟨_, key ty0, mkProperty_dataType _ _ _⟩
  · intro ty
    exact (key ty).trans (key ty0).symm

/-- C10 witness: a function-typed field (unsupported by the mapper) with
`weave:"type=text"` still emits a property with dataType `["text"]`, and
its result does not depend on the type expression. -/
theorem type_override_bypasses_mapper_witness :
    (∃ p, processField overriddenField = .ok (some p) ∧
      p.dataType = ["text"]) ∧
    (∀ ty, processField { overriddenField with typeExpr := ty } =
      processField overriddenField) :=
  type_override_bypasses_mapper overriddenField "Blob" [] [("weave", "type=text")]
    "text" rfl (by decide) rfl (by decide) (by decide)

/-! ## Lemmas about the aggregation loops -/

theorem chainProcess_append {α : Type}
    (step : α → Except String (List WeaviateClass)) (l1 l2 : List α) :
    chainProcess step (l1 ++ l2) =
      match chainProcess step l1 with
      | .error e => .error e
      | .ok cs1 =>
        match chainProcess step l2 with
        | .error e => .error e
        | .ok cs2 => .ok (cs1 ++ cs2) := by
  induction l1 with
  | nil =>
    show chainProcess step l2 = _
    cases chainProcess step l2 <;> rfl
  | cons x rest ih =>
    have step1 : chainProcess step ((x :: rest) ++ l2) =
        match step x with
        | .error e => .error e
        | .ok cs =>
          match chainProcess step (rest ++ l2) with
          | .error e => .error e
          | .ok rest' => .ok (cs ++ rest') := rfl
    have step2 : chainProcess step (x :: rest) =
        match step x with
        | .error e => .error e
        | .ok cs =>
          match chainProcess step rest with
          | .error e => .error e
          | .ok rest' => .ok (cs ++ rest') := rfl
    rw [step1, step2, ih]
    rcases step x with e | cs
    · rfl
    · rcases chainProcess step rest with e1 | cs1
      · rfl
      · rcases chainProcess step l2 with e2 | cs2
        · rfl
        · show Except.ok (cs ++ (cs1 ++ cs2)) = Except.ok ((cs ++ cs1) ++ cs2)
          rw [List.append_assoc]

theorem chainProcess_ok_decomp {α : Type}
    {step : α → Except String (List WeaviateClass)} {l1 l2 : List α}
    {cs : List WeaviateClass}
    (h : chainProcess step (l1 ++ l2) = .ok cs) :
    ∃ cs1 cs2, chainProcess step l1 = .ok cs1 ∧
      chainProcess step l2 = .ok cs2 ∧ cs = cs1 ++ cs2 := by
  rw [chainProcess_append] at h
  rcases h1 : chainProcess step l1 with e | cs1 <;> rw [h1] at h
  · cases h
  · rcases h2 : chainProcess step l2 with e | cs2 <;> rw [h2] at h
    · cases h
    · cases h
      exact ⟨cs1, cs2, rfl, rfl, rfl⟩

theorem chainProcess_cons_ok_decomp {α : Type}
    {step : α → Except String (List WeaviateClass)} {x : α} {l : List α}
    {cs : List WeaviateClass}
    (h : chainProcess step (x :: l) = .ok cs) :
    ∃ cs1 cs2, step x = .ok cs1 ∧ chainProcess step l = .ok cs2 ∧
      cs = cs1 ++ cs2 := by
  unfold chainProcess at h
  rcases h1 : step x with e | cs1 <;> rw [h1] at h
  · cases h
  · rcases h2 : chainProcess step l with e | cs2 <;> rw [h2] at h
    · cases h
    · cases h
      exact ⟨cs1, cs2, rfl, rfl, rfl⟩

theorem chainProcess_cons_of_ok {α : Type}
    {step : α → Except String (List WeaviateClass)} {x : α} {l : List α}
    {cs1 cs2 : List WeaviateClass}
    (h1 : step x = .ok cs1) (h2 : chainProcess step l = .ok cs2) :
    chainProcess step (x :: l) = .ok (cs1 ++ cs2) := by
  unfold chainProcess
  rw [h1, h2]

theorem chainProcess_skip {α : Type}
    {step : α → Except String (List WeaviateClass)} {x : α}
    (hx : step x = .ok []) (l1 l2 : List α) :
    chainProcess step (l1 ++ x :: l2) = chainProcess step (l1 ++ l2) := by
  have hmid : chainProcess step (x :: l2) = chainProcess step l2 := by
    show (match step x with
      | .error e => (Except.error e : Except String (List WeaviateClass))
      | .ok cs =>
        match chainProcess step l2 with
        | .error e => .error e
        | .ok rest' => .ok (cs ++ rest')) = _
    rw [hx]
    cases chainProcess step l2 <;> rfl
  rw [chainProcess_append, hmid, ← chainProcess_append]

theorem chainProcess_error_at {α : Type}
    {step : α → Except String (List WeaviateClass)} {l1 : List α} {x : α}
    {cs1 : List WeaviateClass} {e : String}
    (h1 : chainProcess step l1 = .ok cs1) (h2 : step x = .error e)
    (l2 : List α) :
    chainProcess step (l1 ++ x :: l2) = .error e := by
  rw [chainProcess_append, h1]
  show (match chainProcess step (x :: l2) with
    | .error e => (Except.error e : Except String (List WeaviateClass))
    | .ok cs2 => .ok (cs1 ++ cs2)) = _
  unfold chainProcess
  rw [h2]

theorem chainProcess_congr_mid {α : Type}
    {step : α → Except String (List WeaviateClass)} {x y : α}
    (h : step x = step y) (l1 l2 : List α) :
    chainProcess step (l1 ++ x :: l2) = chainProcess step (l1 ++ y :: l2) := by
  have hmid : chainProcess step (x :: l2) = chainProcess step (y :: l2) := by
    unfold chainProcess
    rw [h]
  rw [chainProcess_append, hmid, ← chainProcess_append]

/-! ## Lemmas about class configuration and the spec step -/

theorem applyClassConfigEntry_className (c : WeaviateClass)
    (kv : String × ConfigValue) :
    (applyClassConfigEntry c kv).className = c.className := by
  unfold applyClassConfigEntry
  repeat' split
  all_goals rfl

theorem applyClassConfig_className (c : WeaviateClass) (cfg : ConfigObj) :
    (applyClassConfig c cfg).className = c.className := by
  induction cfg generalizing c with
  | nil => rfl
  | cons kv rest ih =>
    show (applyClassConfig (applyClassConfigEntry c kv) rest).className = _
    rw [ih, applyClassConfigEntry_className]

theorem desc_update_className (c0 : WeaviateClass) (d : String) :
    (if d ≠ "" then { c0 with description := d } else c0).className =
      c0.className := by
  split <;> rfl

theorem processStruct_className {pkg sn : String} {fields : List FieldDecl}
    {c : WeaviateClass} (h : processStruct pkg sn fields = .ok c) :
    c.className = sn := by
  unfold processStruct at h
  rcases hf : processFields fields with e | ps <;> rw [hf] at h
  · cases h
  · cases h
    rfl

/-- A spec marked at either site that processes successfully yields
exactly one class, named after the struct. -/
theorem processSpec_included {pkg : String} {gdDoc tsDoc : Option CommentGroup}
    {name : String} {fields : List FieldDecl} {cs : List WeaviateClass}
    (hm : hasWeaviateMarker gdDoc = true ∨ hasWeaviateMarker tsDoc = true)
    (h : processSpec pkg gdDoc (.typeSpec name tsDoc (.structType fields)) =
      .ok cs) :
    ∃ c, cs = [c] ∧ c.className = name := by
  unfold processSpec at h
  dsimp only at h
  cases hg : hasWeaviateMarker gdDoc <;> cases ht : hasWeaviateMarker tsDoc <;>
    rw [hg, ht] at h
  · rcases hm with hm | hm
    · rw [hg] at hm; cases hm
    · rw [ht] at hm; cases hm
  all_goals (
    simp only [if_true, if_false, Bool.not_true, Bool.false_eq_true,
      reduceIte] at h
    rcases hps : processStruct pkg name fields with e | c0 <;> rw [hps] at h
    · cases h
    · cases h
      refine ⟨_, rfl, ?_⟩
      rw [applyClassConfig_className, desc_update_className]
      exact processStruct_className hps)

/-- A spec with no marker at either site contributes no class. -/
theorem processSpec_unmarked {pkg : String} {gdDoc tsDoc : Option CommentGroup}
    {name : String} {ty : TypeNode}
    (h1 : hasWeaviateMarker gdDoc = false)
    (h2 : hasWeaviateMarker tsDoc = false) :
    processSpec pkg gdDoc (.typeSpec name tsDoc ty) = .ok [] := by
  unfold processSpec
  cases ty with
  | otherType => rfl
  | structType fields =>
    dsimp only
    rw [h1, h2]
    rfl

/-- A spec marked at either site whose struct fails to process fails the
file with the struct-wrapping error. -/
theorem processSpec_struct_error {pkg : String}
    {gdDoc tsDoc : Option CommentGroup} {name : String}
    {fields : List FieldDecl} {e : String}
    (hm : hasWeaviateMarker gdDoc = true ∨ hasWeaviateMarker tsDoc = true)
    (h : processStruct pkg name fields = .error e) :
    processSpec pkg gdDoc (.typeSpec name tsDoc (.structType fields)) =
      .error s!"error processing struct {name}: {e}" := by
  unfold processSpec
  dsimp only
  cases hg : hasWeaviateMarker gdDoc <;> cases ht : hasWeaviateMarker tsDoc
  · rcases hm with hm | hm
    · rw [hg] at hm; cases hm
    · rw [ht] at hm; cases hm
  all_goals (
    simp only [if_true, if_false, Bool.not_true, Bool.false_eq_true,
      reduceIte]
    rw [h])

/-! ## Claim theorems: inclusion precedence -/

/-- C6: a record declaration whose declaration-group doc carries the
inclusion marker is included (contributes a class of its name) even when
its type-spec doc carries none; a declaration with the marker at neither
site contributes no class at all. -/
theorem marker_inclusion_precedence (pkg : String) :
    (∀ (dpre dpost : List DeclNode) (spre spost : List SpecNode)
       (gdDoc tsDoc : Option CommentGroup) (name : String)
       (fields : List FieldDecl) (classes : List WeaviateClass),
      hasWeaviateMarker gdDoc = true → hasWeaviateMarker tsDoc = false →
      processFileAST ⟨pkg, dpre ++ .typeGenDecl gdDoc
        (spre ++ .typeSpec name tsDoc (.structType fields) :: spost) ::
          dpost⟩ = .ok classes →
      ∃ c ∈ classes, c.className = name) ∧
    (∀ (dpre dpost : List DeclNode) (spre spost : List SpecNode)
       (gdDoc tsDoc : Option CommentGroup) (name : String)
       (fields : List FieldDecl),
      hasWeaviateMarker gdDoc = false → hasWeaviateMarker tsDoc = false →
      processFileAST ⟨pkg, dpre ++ .typeGenDecl gdDoc
        (spre ++ .typeSpec name tsDoc (.structType fields) :: spost) ::
          dpost⟩ =
      processFileAST ⟨pkg, dpre ++ .typeGenDecl gdDoc (spre ++ spost) ::
        dpost⟩) := by
  constructor
  · intro dpre dpost spre spost gdDoc tsDoc name fields classes hg ht h
    have h' : chainProcess (processDecl pkg) (dpre ++ .typeGenDecl gdDoc
        (spre ++ .typeSpec name tsDoc (.structType fields) :: spost) ::
          dpost) = .ok classes := h
    obtain ⟨cs1, cs2, h1, h2, rfl⟩ := chainProcess_ok_decomp h'
    obtain ⟨csd, cs3, hd, h3, rfl⟩ := chainProcess_cons_ok_decomp h2
    have hd' : chainProcess (processSpec pkg gdDoc)
        (spre ++ .typeSpec name tsDoc (.structType fields) :: spost) =
          .ok csd := hd
    obtain ⟨ss1, ss2, hs1, hs2, rfl⟩ := chainProcess_ok_decomp hd'
    obtain ⟨sst, ss3, hst, hs3, rfl⟩ := chainProcess_cons_ok_decomp hs2
    obtain ⟨c, rfl, hcn⟩ := processSpec_included (Or.inl hg) hst
    exact ⟨c, by simp, hcn⟩
  · intro dpre dpost spre spost gdDoc tsDoc name fields hg ht
    have hskip : processSpec pkg gdDoc
        (.typeSpec name tsDoc (.structType fields)) = .ok [] :=
      processSpec_unmarked hg ht
    have hmid : processDecl pkg (.typeGenDecl gdDoc
        (spre ++ .typeSpec name tsDoc (.structType fields) :: spost)) =
        processDecl pkg (.typeGenDecl gdDoc (spre ++ spost)) :=
      chainProcess_skip hskip spre spost
    exact chainProcess_congr_mid hmid dpre dpost

/-- The property the `Title` field of the running example compiles to. -/
def articleProperty : WeaviateProperty :=
  { name := "title", dataType := ["text"], description := "",
    tokenization := "", indexFilterable := false, indexSearchable := false,
    indexInverted := false }

/-- The class the marked `Article` declaration of the running example
compiles to. -/
def articleClass : WeaviateClass :=
  { package := "news", className := "Article", description := "",
    vectorIndexType := "hnsw", vectorIndexConfig := none,
    properties := [articleProperty], vectorizer := "text2vec-contextionary",
    moduleConfig := none, shardingConfig := none, replicationConfig := none,
    invertedIndexConfig := none }

/-- C6 witness: a group-doc-marked `Article` declaration lands in the
output; an unmarked one is dropped, leaving the file's result equal to
the file without it. -/
theorem marker_inclusion_precedence_witness :
    (∃ c ∈ [articleClass], c.className = "Article") ∧
    processFileAST ⟨"news", [.typeGenDecl (some ["// a comment"])
      ([] ++ .typeSpec "Article" none (.structType [titleField]) :: [])]⟩ =
    processFileAST ⟨"news", [.typeGenDecl (some ["// a comment"])
      ([] ++ [])]⟩ := by
  constructor
  · exact (marker_inclusion_precedence "news").1 [] [] [] []
      (some ["// +weave"]) none "Article" [titleField] [articleClass]
      (by decide) rfl rfl
  · exact (marker_inclusion_precedence "news").2 [] [] [] []
      (some ["// a comment"]) none "Article" [titleField]
      (by decide) rfl

/-! ## Claim theorems: unsupported field types abort compilation -/

/-- The message `processStruct` attaches to a field whose data type
cannot be determined. -/
def unsupportedFieldMsg (n e : String) : String :=
  s!"error determining data type for field {n}: {e}"

/-- A processed (named, exported, not excluded) field with no `type`
override whose type expression the mapper rejects fails the field loop
with the field-naming error. -/
theorem processField_unsupported (f : FieldDecl) (n : String)
    (nrest : List String) (e : String)
    (hn : f.names = n :: nrest) (he : isExported n = true)
    (htag : f.tag = none ∨ ∃ t, f.tag = some t ∧
      extractJSONFieldName t ≠ "-" ∧
      (extractWeaviateConfig t).lookup "type" = none)
    (hd : determineWeaviateDataType f.typeExpr = .error e) :
    processField f = .error (unsupportedFieldMsg n e) := by
  unfold unsupportedFieldMsg
  rcases f with ⟨names, ty, tag⟩
  dsimp only at hn hd
  subst hn
  unfold processField
  dsimp only
  rw [if_neg (by simp [he])]
  rcases htag with htag | ⟨t, htag, hx, ho⟩
  · cases htag
    simp only [String.reduceEq, if_false, reduceIte]
    rw [hd]
  · cases htag
    dsimp only
    rw [if_neg hx, ho]
    dsimp only
    rw [hd]

/-- The field loop fails as soon as any field fails, whatever follows. -/
theorem processFields_error_at (l1 : List FieldDecl) (f : FieldDecl)
    (l2 : List FieldDecl) (ps : List WeaviateProperty) (e : String)
    (h1 : processFields l1 = .ok ps) (h2 : processField f = .error e) :
    processFields (l1 ++ f :: l2) = .error e := by
  induction l1 generalizing ps with
  | nil =>
    show (match processField f with
      | .error e => (Except.error e : Except String (List WeaviateProperty))
      | .ok none => processFields l2
      | .ok (some p) =>
        match processFields l2 with
        | .error e => .error e
        | .ok ps => .ok (p :: ps)) = _
    rw [h2]
  | cons g rest ih =>
    rw [List.cons_append]
    unfold processFields at h1
    show processFields (g :: (rest ++ f :: l2)) = _
    unfold processFields
    rcases hg : processField g with eg | pog
    · rw [hg] at h1
      cases h1
    · rw [hg] at h1
      rcases pog with _ | p
      · exact ih ps h1
      · rcases hr : processFields rest with er | qs <;> rw [hr] at h1
        · cases h1
        · cases h1
          rw [ih qs hr]

/-- C3: a scanned, included record declaration containing a field whose
type expression the mapper supports in none of its shapes (and carrying
no `type` override) makes the whole compilation return the error naming
that field, wrapped with the declaration name — no schema document is
produced.  The hypotheses name the position of the offending field and
require everything processed before it to succeed, so the error surfaced
is exactly this field's. -/
theorem unsupported_field_fails_compilation
    (files fpre fpost : List GoFile) (path pkg : String)
    (dpre dpost : List DeclNode) (spre spost : List SpecNode)
    (gdDoc tsDoc : Option CommentGroup) (name : String)
    (fldpre fldpost : List FieldDecl) (fld : FieldDecl)
    (n : String) (nrest : List String) (e : String)
    (cs0 ds0 ss0 : List WeaviateClass) (ps0 : List WeaviateProperty)
    (hsort : sortFiles files = fpre ++
      ⟨path, .ok ⟨pkg, dpre ++ .typeGenDecl gdDoc
        (spre ++ .typeSpec name tsDoc
          (.structType (fldpre ++ fld :: fldpost)) :: spost) :: dpost⟩⟩ ::
        fpost)
    (hfpre : processFiles fpre = .ok cs0)
    (hdpre : processDecls pkg dpre = .ok ds0)
    (hspre : processSpecs pkg gdDoc spre = .ok ss0)
    (hmk : hasWeaviateMarker gdDoc = true ∨ hasWeaviateMarker tsDoc = true)
    (hfl : processFields fldpre = .ok ps0)
    (hn : fld.names = n :: nrest) (he : isExported n = true)
    (htag : fld.tag = none ∨ ∃ t, fld.tag = some t ∧
      extractJSONFieldName t ≠ "-" ∧
      (extractWeaviateConfig t).lookup "type" = none)
    (hd : determineWeaviateDataType fld.typeExpr = .error e) :
    generateWeaviateSchema files = .error
      s!"error processing struct {name}: {unsupportedFieldMsg n e}" := by
  have h1 := processField_unsupported fld n nrest e hn he htag hd
  have h2 := processFields_error_at fldpre fld fldpost ps0 _ hfl h1
  have h3 : processStruct pkg name (fldpre ++ fld :: fldpost) = .error
      (unsupportedFieldMsg n e) := by
    unfold processStruct
    rw [h2]
  have h4 := @processSpec_struct_error pkg gdDoc tsDoc name
    (fldpre ++ fld :: fldpost) (unsupportedFieldMsg n e) hmk h3
  have h5 : processDecl pkg (.typeGenDecl gdDoc
      (spre ++ .typeSpec name tsDoc
        (.structType (fldpre ++ fld :: fldpost)) :: spost)) = .error
      s!"error processing struct {name}: {unsupportedFieldMsg n e}" :=
    chainProcess_error_at hspre h4 spost
  have h6 : processDecls pkg (dpre ++ .typeGenDecl gdDoc
      (spre ++ .typeSpec name tsDoc
        (.structType (fldpre ++ fld :: fldpost)) :: spost) :: dpost) =
      .error
      s!"error processing struct {name}: {unsupportedFieldMsg n e}" :=
    chainProcess_error_at hdpre h5 dpost
  have h7 : processFile ⟨path, .ok ⟨pkg, dpre ++ .typeGenDecl gdDoc
      (spre ++ .typeSpec name tsDoc
        (.structType (fldpre ++ fld :: fldpost)) :: spost) :: dpost⟩⟩ =
      .error
      s!"error processing struct {name}: {unsupportedFieldMsg n e}" := by
    unfold processFile
    exact h6
  have h8 := chainProcess_error_at hfpre h7 fpost
  unfold generateWeaviateSchema
  rw [hsort]
  have h9 : processFiles (fpre ++ ⟨path, .ok ⟨pkg, dpre ++ .typeGenDecl gdDoc
      (spre ++ .typeSpec name tsDoc
        (.structType (fldpre ++ fld :: fldpost)) :: spost) :: dpost⟩⟩ ::
        fpost) = .error
      s!"error processing struct {name}: {unsupportedFieldMsg n e}" := h8
  rw [h9]

/-- A function-typed field with no tag, unsupported by the mapper. -/
def callbackField : FieldDecl :=
  { names := ["Callback"], typeExpr := .funcType, tag := none }

/-- The one-file input whose `Job` struct carries the unsupported
`Callback` field. -/
def jobFile : GoFile :=
  { path := "job.go",
    parsed := .ok ⟨"work", [.typeGenDecl (some ["// +weave"])
      ([] ++ .typeSpec "Job" none
        (.structType ([] ++ callbackField :: [])) :: [])]⟩ }

/-- C3 witness: compiling the directory holding `jobFile` fails with the
error naming the `Callback` field wrapped with the `Job` struct name. -/
theorem unsupported_field_fails_compilation_witness :
    generateWeaviateSchema [jobFile] = .error
      "error processing struct Job: error determining data type for field Callback: unsupported type: *ast.FuncType" := by
  have h := unsupported_field_fails_compilation [jobFile] [] [] "job.go"
    "work" [] [] [] [] (some ["// +weave"]) none "Job" [] [] callbackField
    "Callback" [] "unsupported type: *ast.FuncType" [] [] [] []
    rfl rfl rfl rfl (.inl (by decide)) rfl rfl (by decide) (.inl rfl) rfl
  exact h.trans (congrArg Except.error (by decide))

/-! ## Claim theorems: determinism -/

/-- Two sorted lists of files that are permutations of each other and
have pairwise-distinct paths are equal: sorting the directory listing
cancels the order the file system returned it in. -/
theorem eq_of_sorted_perm_distinct :
    ∀ {l1 l2 : List GoFile}, List.Sorted pathLe l1 → List.Sorted pathLe l2 →
      l1.Perm l2 → l1.Pairwise (fun a b => a.path ≠ b.path) → l1 = l2 := by
  intro l1
  induction l1 with
  | nil =>
    intro l2 _ _ hp _
    exact (hp.symm.eq_nil).symm
  | cons a t1 ih =>
    intro l2 hs1 hs2 hp hd
    rcases l2 with _ | ⟨b, t2⟩
    · have := hp.length_eq
      simp at this
    · have hab : a = b := by
        by_contra hne
        have ha2 : a ∈ b :: t2 := hp.mem_iff.mp (List.mem_cons_self a t1)
        have hb1 : b ∈ a :: t1 := hp.mem_iff.mpr (List.mem_cons_self b t2)
        have ha2' : a ∈ t2 := by
          rcases List.mem_cons.mp ha2 with h | h
          · exact absurd h hne
          · exact h
        have hb1' : b ∈ t1 := by
          rcases List.mem_cons.mp hb1 with h | h
          · exact absurd h.symm hne
          · exact h
        have h1 : pathLe a b := List.rel_of_sorted_cons hs1 b hb1'
        have h2 : pathLe b a := List.rel_of_sorted_cons hs2 a ha2'
        have heq : a.path = b.path := le_antisymm h1 h2
        exact (List.pairwise_cons.mp hd).1 b hb1' heq
      subst hab
      have hperm : t1.Perm t2 := hp.cons_inv
      rw [ih hs1.of_cons hs2.of_cons hperm (List.Pairwise.of_cons hd)]

/-- Sorting is insensitive to the order the directory listing arrives
in, as long as paths are distinct. -/
theorem sortFiles_eq_of_perm {files1 files2 : List GoFile}
    (hp : files1.Perm files2)
    (hd : files1.Pairwise (fun a b => a.path ≠ b.path)) :
    sortFiles files1 = sortFiles files2 := by
  refine eq_of_sorted_perm_distinct
    (List.sorted_insertionSort pathLe files1)
    (List.sorted_insertionSort pathLe files2)
    (((List.perm_insertionSort pathLe files1).trans hp).trans
      (List.perm_insertionSort pathLe files2).symm)
    (((List.perm_insertionSort pathLe files1).pairwise_iff
      (fun h e => h e.symm)).mpr hd)

theorem applyEntry_package (c : WeaviateClass) (kv : String × ConfigValue) :
    (applyClassConfigEntry c kv).package = c.package := by
  unfold applyClassConfigEntry
  repeat' split
  all_goals rfl

theorem applyEntry_description (c : WeaviateClass)
    (kv : String × ConfigValue) :
    (applyClassConfigEntry c kv).description = c.description := by
  unfold applyClassConfigEntry
  repeat' split
  all_goals rfl

theorem applyEntry_properties (c : WeaviateClass)
    (kv : String × ConfigValue) :
    (applyClassConfigEntry c kv).properties = c.properties := by
  unfold applyClassConfigEntry
  repeat' split
  all_goals rfl

theorem applyEntry_vectorIndexType (c : WeaviateClass)
    (kv : String × ConfigValue) :
    (applyClassConfigEntry c kv).vectorIndexType =
      if kv.1 = "vectorIndexType" then
        match kv.2 with
        | .strV s => s
        | _ => c.vectorIndexType
      else c.vectorIndexType := by
  rcases kv with ⟨k, v⟩
  unfold applyClassConfigEntry
  dsimp only
  split_ifs <;> first | (cases v <;> rfl) | simp_all

theorem applyEntry_vectorizer (c : WeaviateClass)
    (kv : String × ConfigValue) :
    (applyClassConfigEntry c kv).vectorizer =
      if kv.1 = "vectorizer" then
        match kv.2 with
        | .strV s => s
        | _ => c.vectorizer
      else c.vectorizer := by
  rcases kv with ⟨k, v⟩
  unfold applyClassConfigEntry
  dsimp only
  split_ifs <;> first | (cases v <;> rfl) | simp_all

theorem applyEntry_vectorIndexConfig (c : WeaviateClass)
    (kv : String × ConfigValue) :
    (applyClassConfigEntry c kv).vectorIndexConfig =
      if kv.1 = "vectorIndexConfig" then
        match kv.2 with
        | .objV m => some m
        | _ => c.vectorIndexConfig
      else c.vectorIndexConfig := by
  rcases kv with ⟨k, v⟩
  unfold applyClassConfigEntry
  dsimp only
  split_ifs <;> first | (cases v <;> rfl) | simp_all

theorem applyEntry_moduleConfig (c : WeaviateClass)
    (kv : String × ConfigValue) :
    (applyClassConfigEntry c kv).moduleConfig =
      if kv.1 = "moduleConfig" then
        match kv.2 with
        | .objV m => some m
        | _ => c.moduleConfig
      else c.moduleConfig := by
  rcases kv with ⟨k, v⟩
  unfold applyClassConfigEntry
  dsimp only
  split_ifs <;> first | (cases v <;> rfl) | simp_all

theorem applyEntry_shardingConfig (c : WeaviateClass)
    (kv : String × ConfigValue) :
    (applyClassConfigEntry c kv).shardingConfig =
      if kv.1 = "shardingConfig" then
        match kv.2 with
        | .objV m => some m
        | _ => c.shardingConfig
      else c.shardingConfig := by
  rcases kv with ⟨k, v⟩
  unfold applyClassConfigEntry
  dsimp only
  split_ifs <;> first | (cases v <;> rfl) | simp_all

theorem applyEntry_replicationConfig (c : WeaviateClass)
    (kv : String × ConfigValue) :
    (applyClassConfigEntry c kv).replicationConfig =
      if kv.1 = "replicationConfig" then
        match kv.2 with
        | .objV m => some m
        | _ => c.replicationConfig
      else c.replicationConfig := by
  rcases kv with ⟨k, v⟩
  unfold applyClassConfigEntry
  dsimp only
  split_ifs <;> first | (cases v <;> rfl) | simp_all

theorem applyEntry_invertedIndexConfig (c : WeaviateClass)
    (kv : String × ConfigValue) :
    (applyClassConfigEntry c kv).invertedIndexConfig =
      if kv.1 = "invertedIndexConfig" then
        match kv.2 with
        | .objV m => some m
        | _ => c.invertedIndexConfig
      else c.invertedIndexConfig := by
  rcases kv with ⟨k, v⟩
  unfold applyClassConfigEntry
  dsimp only
  split_ifs <;> first | (cases v <;> rfl) | simp_all

/-- Config entries with distinct keys update disjoint class fields, so
their applications commute. -/
theorem applyClassConfigEntry_comm (c : WeaviateClass)
    (kv1 kv2 : String × ConfigValue) (h : kv1.1 ≠ kv2.1) :
    applyClassConfigEntry (applyClassConfigEntry c kv1) kv2 =
      applyClassConfigEntry (applyClassConfigEntry c kv2) kv1 := by
  ext
  · rw [applyEntry_package, applyEntry_package, applyEntry_package,
      applyEntry_package]
  · rw [applyClassConfigEntry_className, applyClassConfigEntry_className,
      applyClassConfigEntry_className, applyClassConfigEntry_className]
  · rw [applyEntry_description, applyEntry_description,
      applyEntry_description, applyEntry_description]
  · rw [applyEntry_vectorIndexType, applyEntry_vectorIndexType,
      applyEntry_vectorIndexType, applyEntry_vectorIndexType]
    by_cases h1 : kv1.1 = "vectorIndexType" <;>
      by_cases h2 : kv2.1 = "vectorIndexType"
    · exact absurd (h1.trans h2.symm) h
    all_goals simp [h1, h2]
  · rw [applyEntry_vectorIndexConfig, applyEntry_vectorIndexConfig,
      applyEntry_vectorIndexConfig, applyEntry_vectorIndexConfig]
    by_cases h1 : kv1.1 = "vectorIndexConfig" <;>
      by_cases h2 : kv2.1 = "vectorIndexConfig"
    · exact absurd (h1.trans h2.symm) h
    all_goals simp [h1, h2]
  · rw [applyEntry_properties, applyEntry_properties,
      applyEntry_properties, applyEntry_properties]
  · rw [applyEntry_vectorizer, applyEntry_vectorizer,
      applyEntry_vectorizer, applyEntry_vectorizer]
    by_cases h1 : kv1.1 = "vectorizer" <;> by_cases h2 : kv2.1 = "vectorizer"
    · exact absurd (h1.trans h2.symm) h
    all_goals simp [h1, h2]
  · rw [applyEntry_moduleConfig, applyEntry_moduleConfig,
      applyEntry_moduleConfig, applyEntry_moduleConfig]
    by_cases h1 : kv1.1 = "moduleConfig" <;>
      by_cases h2 : kv2.1 = "moduleConfig"
    · exact absurd (h1.trans h2.symm) h
    all_goals simp [h1, h2]
  · rw [applyEntry_shardingConfig, applyEntry_shardingConfig,
      applyEntry_shardingConfig, applyEntry_shardingConfig]
    by_cases h1 : kv1.1 = "shardingConfig" <;>
      by_cases h2 : kv2.1 = "shardingConfig"
    · exact absurd (h1.trans h2.symm) h
    all_goals simp [h1, h2]
  · rw [applyEntry_replicationConfig, applyEntry_replicationConfig,
      applyEntry_replicationConfig, applyEntry_replicationConfig]
    by_cases h1 : kv1.1 = "replicationConfig" <;>
      by_cases h2 : kv2.1 = "replicationConfig"
    · exact absurd (h1.trans h2.symm) h
    all_goals simp [h1, h2]
  · rw [applyEntry_invertedIndexConfig, applyEntry_invertedIndexConfig,
      applyEntry_invertedIndexConfig, applyEntry_invertedIndexConfig]
    by_cases h1 : kv1.1 = "invertedIndexConfig" <;>
      by_cases h2 : kv2.1 = "invertedIndexConfig"
    · exact absurd (h1.trans h2.symm) h
    all_goals simp [h1, h2]

/-- Applying a distinct-key config in any iteration order gives the same
class: the model of Go's arbitrary map iteration order in
`applyClassConfig`. -/
theorem applyClassConfig_perm (c : WeaviateClass) (cfg1 cfg2 : ConfigObj)
    (hp : cfg1.Perm cfg2)
    (hd : cfg1.Pairwise (fun a b => a.1 ≠ b.1)) :
    applyClassConfig c cfg1 = applyClassConfig c cfg2 := by
  unfold applyClassConfig
  refine hp.foldl_eq' ?_ c
  intro x hx y hy z
  by_cases hxy : x = y
  · subst hxy
    rfl
  · have hsymm : Symmetric (fun a b : String × ConfigValue => a.1 ≠ b.1) :=
      fun _ _ h e => h e.symm
    exact applyClassConfigEntry_comm z x y (hd.forall hsymm hx hy hxy)

/-- C8: determinism of compilation.  For a fixed directory content, the
schema does not depend on the order the file system lists the files in
(they are processed in lexicographic path order), and applying a class
config does not depend on the iteration order of its (distinct-key)
entries — the two sources of run-to-run nondeterminism in the Go
original. -/
theorem compilation_deterministic :
    (∀ files1 files2 : List GoFile, files1.Perm files2 →
      files1.Pairwise (fun a b => a.path ≠ b.path) →
      generateWeaviateSchema files1 = generateWeaviateSchema files2) ∧
    (∀ (c : WeaviateClass) (cfg1 cfg2 : ConfigObj), cfg1.Perm cfg2 →
      cfg1.Pairwise (fun a b : String × ConfigValue => a.1 ≠ b.1) →
      applyClassConfig c cfg1 = applyClassConfig c cfg2) := by
  constructor
  · intro files1 files2 hp hd
    unfold generateWeaviateSchema
    rw [sortFiles_eq_of_perm hp hd]
  · exact applyClassConfig_perm

/-- An empty parsed file at path `a.go`. -/
def fileA : GoFile := { path := "a.go", parsed := .ok ⟨"p", []⟩ }

/-- An empty parsed file at path `b.go`. -/
def fileB : GoFile := { path := "b.go", parsed := .ok ⟨"p", []⟩ }

/-- C8 witness: swapping the listing order of two files, or the
iteration order of two distinct config keys, leaves the result
unchanged. -/
theorem compilation_deterministic_witness :
    generateWeaviateSchema [fileB, fileA] =
      generateWeaviateSchema [fileA, fileB] ∧
    applyClassConfig articleClass
      [("vectorizer", .strV "none"), ("vectorIndexType", .strV "flat")] =
    applyClassConfig articleClass
      [("vectorIndexType", .strV "flat"), ("vectorizer", .strV "none")] := by
  constructor
  · refine compilation_deterministic.1 [fileB, fileA] [fileA, fileB]
      (List.Perm.swap fileA fileB []) ?_
    simp [fileA, fileB, List.pairwise_cons]
  · refine compilation_deterministic.2 articleClass _ _
      (List.Perm.swap ("vectorIndexType", ConfigValue.strV "flat")
        ("vectorizer", ConfigValue.strV "none") []) ?_
    simp [List.pairwise_cons]

end Weave
